import Mathlib

/-!
Verification development for `viewhtmlmail.py`: a script that splits a MIME
mail message into files, rewrites `cid:` references inside HTML parts to
`file://` URLs, and dispatches the results to an external browser.

The Python source is shallowly embedded: strings become `List Char`, the
mutable extraction loop becomes explicit state passing, fallible filesystem
writes consult an explicit failure oracle, and uncaught Python exceptions
become explicit error values.
-/

namespace ViewHtmlMail

/-- Strings are modelled as lists of characters. -/
abbrev Str := List Char

/-- Characters kept by `sanitize_filename` (viewhtmlmail.py lines 148-150):
`x.isalpha() or x.isdigit() or x in '-_.'`. -/
def allowedChar (c : Char) : Bool :=
  c.isAlpha || c.isDigit || c == '-' || c == '_' || c == '.'

/-- Embedding of `sanitize_filename` (lines 147-150): keep only the allowed
characters of the input, in order. -/
def sanitize_filename (badstr : Str) : Str :=
  badstr.filter allowedChar

/-- Decimal digits of a natural number, most significant digit first.
The first argument is recursion fuel; `natRepr` supplies enough of it. -/
def natReprAux : Nat → Nat → Str
  | 0, _ => []
  | fuel+1, n => (if n < 10 then [] else natReprAux fuel (n / 10)) ++ [Nat.digitChar (n % 10)]

/-- Decimal rendering of a natural number: models Python's `"%d" % n`. -/
def natRepr (n : Nat) : Str := natReprAux (n+1) n

/-- Zero padding to a given width: models Python's `"%0Nd" % n` conversions
(`"%03d"` at line 268, `"%02d"` at line 304). -/
def pad (w : Nat) (n : Nat) : Str :=
  List.replicate (w - (natRepr n).length) '0' ++ natRepr n

/-- Value of a decimal digit string, used to invert `natRepr`. -/
def digitsVal (s : Str) : Nat := s.foldl (fun a c => a * 10 + (c.toNat - 48)) 0

/-- Embedding of `os.path.splitext` for the names arising here (no path
separators inside the argument matter for the split): split at the last dot,
provided some character strictly before that dot is not itself a dot;
otherwise the extension is empty. -/
def splitext (s : Str) : Str × Str :=
  let rev := s.reverse
  let extRev := rev.takeWhile (fun c => !(c == '.'))
  if extRev.length = rev.length then (s, [])
  else
    let baseRev := rev.drop (extRev.length + 1)
    if baseRev.any (fun c => !(c == '.')) then
      (baseRev.reverse, '.' :: extRev.reverse)
    else (s, [])

/-- Name built by the collision loop (line 279): `"%s-%d%s" % (base, counter, ext)`. -/
def mkNumbered (base ext : Str) (c : Nat) : Str := base ++ '-' :: (natRepr c ++ ext)

/-- Embedding of the `while filename in filenames` loop of lines 276-279:
starting from counter value `c`, try `base-(c+1)ext`, `base-(c+2)ext`, ...
until a name not in `fns` is found; returns the name together with the final
counter value (the loop leaves the shared `counter` variable clobbered).
The fuel argument bounds the iterations; `uniquify` supplies enough of it. -/
def uniqLoop (base ext : Str) (fns : List Str) : Nat → Nat → Str × Nat
  | 0, c => (mkNumbered base ext c, c)
  | fuel+1, c =>
    let f := mkNumbered base ext (c+1)
    if f ∈ fns then uniqLoop base ext fns fuel (c+1) else (f, c+1)

/-- Embedding of lines 274-281: if the derived filename collides with one
already used in this run, resolve the collision with `uniqLoop` (the source
resets the shared counter to 0 first); otherwise keep name and counter. -/
def uniquify (filename : Str) (fns : List Str) (counter : Nat) : Str × Nat :=
  if filename ∈ fns then
    uniqLoop (splitext filename).1 (splitext filename).2 fns (fns.length + 1) 0
  else (filename, counter)

/-- One node of the parsed message, as enumerated in depth-first pre-order by
`msg.walk()` (line 214), carrying exactly the attributes the loop reads.
`multipart` models `part.is_multipart()`: true exactly when the payload of the
part is a list of sub-messages, which the Python email parser makes it for
`multipart/*` containers and for `message/rfc822` parts. The extraction loop
consumes the walk as a flat list, so the model does too. -/
structure Part where
  headers : List (Str × Str)
  maintype : Str
  subtype : Str
  filename : Option Str
  payload : Str
  multipart : Bool
deriving DecidableEq

/-- Parser invariant on walked parts: a part whose declared media type is
`multipart/*` or `message/rfc822` has a list payload, i.e. `is_multipart()`
is true for it.  The Python email parser guarantees this for every message
tree it produces. -/
def Part.wf (p : Part) : Bool :=
  !(p.maintype == "multipart".toList
    || (p.maintype == "message".toList && p.subtype == "rfc822".toList))
  || p.multipart

/-- Uncaught Python exceptions of the script, made explicit. -/
inductive PyError where
  | writeError
  | typeError
  | attributeError
  | nameError
deriving DecidableEq

/-- Models the Python stdlib `mimetypes.guess_extension` mapping for the media
types exercised in this development; other types yield `none` (the caller then
falls back to `".bin"`, lines 261-264). -/
def guess_extension (maintype subtype : Str) : Option Str :=
  if maintype = "text".toList ∧ subtype = "html".toList then some (".html".toList)
  else if maintype = "image".toList ∧ subtype = "png".toList then some (".png".toList)
  else if maintype = "application".toList ∧ subtype = "pdf".toList then some (".pdf".toList)
  else none

/-- Lowercasing of a header name, modelling `k.lower()` (line 229). -/
def lowerStr (s : Str) : Str := s.map Char.toLower

/-- Header scan of lines 228-239: the value of the first header whose
lowercased name is `content-id`. -/
def findCidHeader (headers : List (Str × Str)) : Option Str :=
  (headers.find? (fun kv => lowerStr kv.1 == "content-id".toList)).map Prod.snd

/-- Angle-bracket stripping of lines 234-235: drop one surrounding `<` `>`
pair when the value both starts with `<` and ends with `>`. -/
def stripAngle (s : Str) : Str :=
  if s.head? = some '<' ∧ s.getLast? = some '>' then (s.drop 1).dropLast else s

/-- Embedding of the filename derivation of lines 253-268, given the truthy
content identifier (if any) and the current counter: a declared non-empty
filename is sanitized; otherwise the name is built from the content identifier
(then sanitized as a whole) or from the zero-padded counter, with an extension
guessed from the media type and `.bin` as fallback. -/
def derive_filename (p : Part) (cidT : Option Str) (counter : Nat) : Str :=
  let ext := (guess_extension p.maintype p.subtype).getD (".bin".toList)
  let fallback :=
    match cidT with
    | some c => sanitize_filename ("cid".toList ++ c ++ ext)
    | none => "part-".toList ++ pad 3 counter ++ ext
  match p.filename with
  | some f => if f.isEmpty then fallback else sanitize_filename f
  | none => fallback

/-- Insertion into the `subfiles` dict (line 287): Python dict assignment keeps
an existing key at its position and replaces the value, otherwise appends. -/
def dictInsert (k : Str) (v : Str × Part) :
    List (Str × (Str × Part)) → List (Str × (Str × Part))
  | [] => [(k, v)]
  | (k', v') :: t => if k' = k then (k, v) :: t else (k', v') :: dictInsert k v t

/-- Models `os.path.join` for the shapes arising here: the left argument is a
`tempfile.mkdtemp()` directory (absolute, no trailing slash); a right argument
that is itself absolute replaces the left one, and joining the empty name
yields the directory path with a trailing separator. -/
def os_path_join (a b : Str) : Str :=
  if b.head? = some '/' then b else a ++ '/' :: b

/-- Mutable state of the extraction loop of lines 183-291.  `chosen` (the
derived filenames in order) and `attempts` (the paths handed to `open`) are
bookkeeping projections of the loop's observable effects; `written` records
the writes that succeeded. -/
structure ExtractState where
  counter : Nat
  filenames : List Str
  subfiles : List (Str × (Str × Part))
  html_parts : List Part
  chosen : List Str
  attempts : List Str
  written : List (Str × Part)

/-- Initial extraction state (lines 183-187): counter starts at 1, every
collection empty. -/
def initState : ExtractState := ⟨1, [], [], [], [], [], []⟩

/-- The content identifier of lines 227-239 in its truthy form (the value the
tests `if content_id:` at lines 265 and 286 see): the first `content-id`
header's value, angle brackets stripped, and `none` when absent or empty. -/
def cidTruthy (p : Part) : Option Str :=
  match findCidHeader p.headers with
  | some v => if (stripAngle v).isEmpty then none else some (stripAngle v)
  | none => none

/-- The counter after the content-id scan (line 237 increments it whenever a
content-id header was found, stripped value empty or not). -/
def counterAfterCid (p : Part) (counter : Nat) : Nat :=
  match findCidHeader p.headers with
  | some _ => counter + 1
  | none => counter

/-- State mutations of one non-container iteration of the walk loop made
before the `open` call (lines 227-287): content-id scan and counter bump,
html-part collection, filename derivation and uniquification, counter
clobbering by the collision loop, path join, and ContentIdIndex insertion.
Returns the new state together with the derived filename. -/
def processPartPre (tmpdir : Str) (st : ExtractState) (p : Part) : ExtractState × Str :=
  let counter1 := counterAfterCid p st.counter
  let html_parts :=
    if p.subtype = "html".toList then st.html_parts ++ [p] else st.html_parts
  let fnc := uniquify (derive_filename p (cidTruthy p) counter1) st.filenames counter1
  let path := os_path_join tmpdir fnc.1
  let subfiles :=
    match cidTruthy p with
    | some c => dictInsert c (path, p) st.subfiles
    | none => st.subfiles
  ({ counter := fnc.2,
     filenames := fnc.1 :: st.filenames,
     subfiles := subfiles,
     html_parts := html_parts,
     chosen := st.chosen ++ [fnc.1],
     attempts := st.attempts ++ [path],
     written := st.written }, fnc.1)

/-- Embedding of one iteration of the `for part in msg.walk()` loop, lines
214-291.  The guard at line 221 is `part.is_multipart() or
part.get_content_type == 'message/rfc822'`: the second disjunct compares a
bound method to a string and is therefore always false, written `|| false`
here.  A failing write (oracle `writeFails`) raises: the state mutations made
before `open` (counter, filenames, subfiles, html_parts) survive, the write
does not, and the error aborts the caller. -/
def processPart (tmpdir : Str) (writeFails : Str → Bool) (st : ExtractState) (p : Part) :
    ExtractState × Option PyError :=
  if p.multipart || false then (st, none)
  else
    let sp := processPartPre tmpdir st p
    let path := os_path_join tmpdir sp.2
    if writeFails path then (sp.1, some PyError.writeError)
    else ({ sp.1 with written := st.written ++ [(path, p)] }, none)

/-- The extraction loop over the walked parts.  There is no exception handler
in the source, so the first failing write aborts the loop with its error and
the remaining parts are not processed. -/
def extractLoop (tmpdir : Str) (writeFails : Str → Bool) :
    ExtractState → List Part → ExtractState × Option PyError
  | st, [] => (st, none)
  | st, p :: rest =>
    match processPart tmpdir writeFails st p with
    | (st', none) => extractLoop tmpdir writeFails st' rest
    | (st', some e) => (st', some e)

/-- Case-insensitive prefix stripping: if `s` starts with `p` up to
`Char.toLower`, return the remainder. -/
def stripPrefixCI : Str → Str → Option Str
  | [], s => some s
  | _ :: _, [] => none
  | p :: ps, c :: cs => if p.toLower = c.toLower then stripPrefixCI ps cs else none

/-- One match attempt of the pattern `'cid: ?' + sf_cid` with `re.IGNORECASE`
(line 331) at the head of `s`: the literal `cid:`, then greedily an optional
space, then the identifier, all compared case-insensitively.  Assumes the
identifier contains no regex metacharacters, as the identifiers considered in
this development do.  Returns the remainder after the match. -/
def matchCid (cid : Str) (s : Str) : Option Str :=
  match stripPrefixCI ("cid:".toList) s with
  | none => none
  | some r =>
    match r with
    | ' ' :: r2 =>
      match stripPrefixCI cid r2 with
      | some r3 => some r3
      | none => stripPrefixCI cid r
    | _ => stripPrefixCI cid r

/-- Left-to-right, non-overlapping replacement of every match of the pattern
by `repl`, as `re.sub` performs it: scanning resumes after each replaced
match.  Fuel-indexed for structural recursion; every step consumes at least
one character of `s`, so `subAll` supplies enough fuel. -/
def subAllFuel (cid repl : Str) : Nat → Str → Str
  | 0, s => s
  | fuel+1, s =>
    match matchCid cid s with
    | some rest => repl ++ subAllFuel cid repl fuel rest
    | none =>
      match s with
      | [] => []
      | c :: t => c :: subAllFuel cid repl fuel t

/-- Embedding of `re.sub('cid: ?' + sf_cid, 'file://' + path, htmlsrc,
flags=re.IGNORECASE)` (lines 331-333), with `repl` the full replacement. -/
def subAll (cid repl s : Str) : Str := subAllFuel cid repl s.length s

/-- The per-HTML-part substitution loop of lines 324-336: for each entry of
the ContentIdIndex in insertion order, substitute `file://path` for the `cid:`
references; an identifier is appended to the embedded list exactly when it is
not already there and its substitution changed the text. -/
def rewriteLoop : List (Str × Str) → Str → List Str → Str × List Str
  | [], s, emb => (s, emb)
  | (cid, path) :: rest, s, emb =>
    let ns := subAll cid ("file://".toList ++ path) s
    let emb' := if cid ∉ emb ∧ ns ≠ s then emb ++ [cid] else emb
    rewriteLoop rest ns emb'

/-- The text component of `rewriteLoop`: the folded substitutions alone. -/
def rewriteText (index : List (Str × Str)) (s : Str) : Str :=
  index.foldl (fun acc pr => subAll pr.1 ("file://".toList ++ pr.2) acc) s

/-- Whether `s` contains, at any position, a reference matched by the pattern
`'cid: ?' + cid` (case-insensitive, optional space). -/
def hasRef (cid : Str) : Str → Bool
  | [] => (matchCid cid []).isSome
  | c :: t => (matchCid cid (c :: t)).isSome || hasRef cid t

/-- Boolean prefix test on character lists. -/
def startsWithStr : Str → Str → Bool
  | [], _ => true
  | _ :: _, [] => false
  | p :: ps, c :: cs => p == c && startsWithStr ps cs

/-- Boolean substring test: does `s` contain `pat` contiguously? -/
def containsB (pat : Str) : Str → Bool
  | [] => startsWithStr pat []
  | c :: t => startsWithStr pat (c :: t) || containsB pat t

/-- Active configuration: the source sets `USE_QUTEBROWSER = True`, so the
qutebrowser branch of lines 69-94 is the one compiled in. -/
def USE_WVHTML_FOR_DOC : Bool := false

/-- Under the qutebrowser configuration, PDFs are converted to HTML (line 94). -/
def CONVERT_PDF_TO_HTML : Bool := true

/-- First-call browser argument set (lines 79-83). -/
def BROWSER_FIRST_ARGS : List Str :=
  (["--target", "private-window", "--basedir", "/tmp/mailattachments",
    "-s", "content.dns_prefetch", "false",
    "-s", "content.javascript.enabled", "false"]).map String.toList

/-- Same-session browser argument set (lines 84-89). -/
def BROWSER_ARGS : List Str :=
  (["--target", "tab-bg", "--basedir", "/tmp/mailattachments"]).map String.toList

/-- A browser invocation: the argument set used and the final `file://` URL. -/
abbrev BrowserCall := List Str × Str

/-- Output of the HTML rewriting phase: the `(path, text)` pairs written, the
browser calls made, and the final embedded-identifier list. -/
structure HtmlPhaseOut where
  files : List (Str × Str)
  calls : List BrowserCall
  embedded : List Str

/-- Embedding of the `for i, html_part in enumerate(html_parts)` loop of lines
303-356: write `viewhtml%02d.html` containing the rewritten text, then call
the browser on it — with `BROWSER_FIRST_ARGS` on the very first iteration
(`first_browser`, lines 347-351) and `BROWSER_ARGS` afterwards.  `sfp` is the
ContentIdIndex projected to `(identifier, path)` pairs in insertion order;
the embedded list threads through all iterations. -/
def htmlPhaseLoop (tmpdir : Str) (sfp : List (Str × Str)) :
    Nat → Bool → List Str → List Part → HtmlPhaseOut
  | _, _, emb, [] => ⟨[], [], emb⟩
  | i, first, emb, p :: rest =>
    let htmlfile := os_path_join tmpdir ("viewhtml".toList ++ pad 2 i ++ ".html".toList)
    let te := rewriteLoop sfp p.payload emb
    let args := if first then BROWSER_FIRST_ARGS else BROWSER_ARGS
    let r := htmlPhaseLoop tmpdir sfp (i+1) false te.2 rest
    ⟨(htmlfile, te.1) :: r.files, (args, "file://".toList ++ htmlfile) :: r.calls, r.embedded⟩

/-- Output of dispatching one or more attachments: browser calls, converter
invocations, and the first uncaught error if one is raised. -/
structure DispatchOut where
  calls : List BrowserCall
  convs : List (List Str)
  err : Option PyError

/-- Embedding of the body of the attachment loop, lines 371-416, for one
non-embedded entry of the ContentIdIndex.  Word-processor subtypes are
converted with unoconv and the result browsed (`delayed_browser` always uses
`BROWSER_ARGS`, lines 442-448); presentation subtypes are first converted to
PDF; then line 408 evaluates `part.get_content_subtype() == "pdf" or
partfile.endswith(pdf)` — `pdf` is an undefined global, so whenever the
subtype is not `"pdf"` the second operand is evaluated and raises NameError.
Parts whose maintype is not `application` fall through with no action. -/
def dispatchPart (p : Part) (partfile : Str) : DispatchOut :=
  let fileparts := splitext partfile
  if p.maintype = "application".toList then
    let htmlfilename := fileparts.1 ++ ".html".toList
    if p.subtype = "msword".toList ∧ USE_WVHTML_FOR_DOC = true then
      ⟨[(BROWSER_ARGS, "file://".toList ++ htmlfilename)],
       [["wvHtml".toList, partfile, htmlfilename]], none⟩
    else if p.subtype = "vnd.openxmlformats-officedocument.wordprocessingml.document".toList
        ∨ p.subtype = "msword".toList
        ∨ p.subtype = "vnd.oasis.opendocument.text".toList then
      ⟨[(BROWSER_ARGS, "file://".toList ++ htmlfilename)],
       [["unoconv".toList, "-f".toList, "html".toList, "-T".toList, "14".toList,
         "-o".toList, htmlfilename, partfile]], none⟩
    else
      let ppt := p.subtype = "vnd.ms-powerpoint".toList
        ∨ p.subtype = "vnd.openxmlformats-officedocument.presentationml.presentation".toList
      let partfile2 := if ppt then fileparts.1 ++ ".pdf".toList else partfile
      let convs1 : List (List Str) :=
        if ppt then
          [["unoconv".toList, "-f".toList, "pdf".toList,
            "-o".toList, fileparts.1 ++ ".pdf".toList, partfile]]
        else []
      if p.subtype = "pdf".toList then
        if CONVERT_PDF_TO_HTML = true then
          ⟨[(BROWSER_ARGS, "file://".toList ++ (fileparts.1 ++ "-html.html".toList))],
           convs1 ++ [["pdftohtml".toList, "-s".toList, partfile2]], none⟩
        else
          ⟨[(BROWSER_ARGS, "file://".toList ++ partfile2)], convs1, none⟩
      else
        ⟨[], convs1, some PyError.nameError⟩
  else ⟨[], [], none⟩

/-- Embedding of the `for sfid in subfiles` loop of lines 366-416: entries
whose identifier is in the embedded list are skipped (line 373); an uncaught
error aborts the loop, keeping the effects made before it. -/
def dispatchLoop (embedded : List Str) : List (Str × (Str × Part)) → DispatchOut
  | [] => ⟨[], [], none⟩
  | (sfid, pf) :: rest =>
    if sfid ∈ embedded then dispatchLoop embedded rest
    else
      let d := dispatchPart pf.2 pf.1
      match d.err with
      | some e => ⟨d.calls, d.convs, some e⟩
      | none =>
        let r := dispatchLoop embedded rest
        ⟨d.calls ++ r.calls, d.convs ++ r.convs, r.err⟩

/-- Observable outcome of one `view_html_message` run. -/
structure Run where
  written : List (Str × Part)
  attempts : List Str
  subfiles : List (Str × (Str × Part))
  htmlFiles : List (Str × Str)
  calls : List BrowserCall
  convs : List (List Str)
  err : Option PyError

/-- Embedding of `view_html_message` (lines 152-416) from the point where the
message tree is in hand, the tree given as its `msg.walk()` part list:
extraction, then the HTML rewrite-and-dispatch phase, then the attachment
dispatch phase.  An extraction error (uncaught exception) aborts everything
after it. -/
def view_html_message (tmpdir : Str) (writeFails : Str → Bool) (parts : List Part) : Run :=
  let se := extractLoop tmpdir writeFails initState parts
  let st := se.1
  match se.2 with
  | some e => ⟨st.written, st.attempts, st.subfiles, [], [], [], some e⟩
  | none =>
    let hp := htmlPhaseLoop tmpdir (st.subfiles.map (fun e => (e.1, e.2.1))) 0 true [] st.html_parts
    let dp := dispatchLoop hp.embedded st.subfiles
    ⟨st.written, st.attempts, st.subfiles, hp.files, hp.calls ++ dp.calls, dp.convs, dp.err⟩

/-- A filesystem tree node for the maildir model: a regular file or a
directory with its entries in `os.listdir` order. -/
inductive FT where
  | file : Str → FT
  | dir : Str → List FT → FT

/-- Name of an entry. -/
def FT.name : FT → Str
  | .file n => n
  | .dir n _ => n

/-- The regular-file names among a directory's entries, in order (the `files`
component of an `os.walk` triple). -/
def fileNames (es : List FT) : List Str :=
  es.filterMap (fun e =>
    match e with
    | .file n => some n
    | .dir _ _ => none)

/-- The subdirectories among a directory's entries, in order (the `dirs`
component of an `os.walk` triple). -/
def dirsOf (es : List FT) : List FT :=
  es.filter (fun e =>
    match e with
    | .file _ => false
    | .dir _ _ => true)

/-- Embedding of `find_first_maildir_file` (lines 135-145): walk the tree
top-down (the current directory's files first, then each subdirectory
depth-first, exactly the `os.walk` order) and return the full path of the
first file whose name does not start with a dot; `none` when there is none.
The fuel bounds the recursion depth; any fuel exceeding the tree depth
computes the function of the source. -/
def findFirstFuel : Nat → Str → FT → Option Str
  | 0, _, _ => none
  | _+1, _, .file _ => none
  | fuel+1, p, .dir _ es =>
    match (fileNames es).find? (fun n => !(n.head? == some '.')) with
    | some n => some (os_path_join p n)
    | none => (dirsOf es).findSome? (fun d => findFirstFuel fuel (os_path_join p d.name) d)

/-- Whether the tree contains, within the given depth, a regular file whose
name does not start with a dot — aligned level-by-level with the fuel of
`findFirstFuel`. -/
def hasVisibleFuel : Nat → FT → Bool
  | _, .file n => !(n.head? == some '.')
  | 0, .dir _ _ => false
  | fuel+1, .dir _ es =>
    (fileNames es).any (fun n => !(n.head? == some '.'))
      || (dirsOf es).any (fun d => hasVisibleFuel fuel d)

/-- `os.listdir` on a directory: the entry names in order. -/
def listdir : FT → List Str
  | .file _ => []
  | .dir _ es => es.map FT.name

/-- Embedding of the maildir branch of `view_html_message` (lines 161-174)
together with the first later use of `msg`:  the code loops over
`os.listdir(f)` and, in the first iteration, calls
`open(find_first_maildir_file(f))`.  If the listing is empty the loop body
never runs, `msg` stays `None`, and the subsequent `msg.walk()` raises
AttributeError; if the locator returns `None`, `open(None)` raises TypeError.
On success the path of the located message file is returned. -/
def load_maildir (fuel : Nat) (p : Str) (root : FT) : Except PyError Str :=
  if (listdir root).isEmpty then Except.error PyError.attributeError
  else
    match findFirstFuel fuel p root with
    | none => Except.error PyError.typeError
    | some fpath => Except.ok fpath

/-- Invariant of the extraction loop used for the uniqueness argument: the
names chosen so far are pairwise distinct, each of them is in the
filename set consulted by `uniquify`, the attempted write paths are exactly
those names joined under the working directory, and no chosen name contains a
path separator. -/
def extractInv (tmpdir : Str) (st : ExtractState) : Prop :=
  st.chosen.Nodup ∧
  (∀ n ∈ st.chosen, n ∈ st.filenames) ∧
  st.attempts = st.chosen.map (os_path_join tmpdir) ∧
  (∀ n ∈ st.chosen, '/' ∉ n)

/-- Write oracle under which every write succeeds. -/
def noFail : Str → Bool := fun _ => false

/-- Test message for claim C2: one `application/pdf` attachment that declares
a filename but carries no Content-ID header, inside a multipart container. -/
def exMsgC2 : List Part :=
  [⟨[], "multipart".toList, "mixed".toList, none, [], true⟩,
   ⟨[], "application".toList, "pdf".toList, some ("doc.pdf".toList), "P".toList, false⟩]

/-- Test message for claim C4: two image attachments with distinct names. -/
def exMsgC4 : List Part :=
  [⟨[], "image".toList, "png".toList, some ("a.png".toList), "A".toList, false⟩,
   ⟨[], "image".toList, "png".toList, some ("b.png".toList), "B".toList, false⟩]

/-- Write oracle for claim C4: exactly the write of `/tmp/t/a.png` fails. -/
def exOracleC4 : Str → Bool := fun s => s == "/tmp/t/a.png".toList

/-- Test message for claim C5: a `message/rfc822` container (hence with a list
payload) wrapping an HTML leaf. -/
def exMsgC5 : List Part :=
  [⟨[], "message".toList, "rfc822".toList, none, [], true⟩,
   ⟨[], "text".toList, "html".toList, none, "<p>hi</p>".toList, false⟩]

/-- Test part for claim C6: an `image/png` part with no declared filename. -/
def exPartC6 : Part := ⟨[], "image".toList, "png".toList, none, [], false⟩

/-- Test message for claim C9: a `application/pdf` attachment carrying a
Content-ID that no HTML part references (there is no HTML part at all). -/
def exMsgC9 : List Part :=
  [⟨[], "multipart".toList, "mixed".toList, none, [], true⟩,
   ⟨[("Content-ID".toList, "<x>".toList)], "application".toList, "pdf".toList,
    some ("a.pdf".toList), "P".toList, false⟩]

/-- Test part for claim C10: a declared filename made only of slashes —
non-empty, but sanitized to the empty string. -/
def exPartC10 : Part :=
  ⟨[], "application".toList, "pdf".toList, some ("///".toList), "x".toList, false⟩

/-- Test part for claim C9's witness: a single `text/html` body. -/
def exPartHtml : Part :=
  ⟨[], "text".toList, "html".toList, none, "<p>hi</p>".toList, false⟩

/-- Maildir tree for claim C3: the mailbox directory contains only a hidden
file, so no regular non-hidden file exists anywhere in it. -/
def exDirC3 : FT := FT.dir ("mutttmp".toList) [FT.file (".hidden".toList)]

/-! Theorems. -/

theorem digitsVal_append_singleton (a : Str) (c : Char) :
    digitsVal (a ++ [c]) = digitsVal a * 10 + (c.toNat - 48) := by
  simp [digitsVal, List.foldl_append]

theorem digitChar_val : ∀ d, d < 10 → (Nat.digitChar d).toNat - 48 = d := by decide

theorem digitsVal_natReprAux : ∀ fuel n, n < fuel → digitsVal (natReprAux fuel n) = n := by
  intro fuel
  induction fuel with
  | zero => intro n h; omega
  | succ fuel ih =>
    intro n h
    by_cases h10 : n < 10
    · have hmod : n % 10 = n := Nat.mod_eq_of_lt h10
      simp [natReprAux, h10, digitsVal, hmod, digitChar_val n h10]
    · have hpos : 0 < n := by omega
      have hdiv : n / 10 < n := Nat.div_lt_self hpos (by omega)
      have : natReprAux (fuel+1) n = natReprAux fuel (n / 10) ++ [Nat.digitChar (n % 10)] := by
        simp [natReprAux, h10]
      rw [this, digitsVal_append_singleton, ih (n / 10) (by omega),
          digitChar_val (n % 10) (Nat.mod_lt n (by omega))]
      omega

theorem digitsVal_natRepr (n : Nat) : digitsVal (natRepr n) = n :=
  digitsVal_natReprAux (n+1) n (Nat.lt_succ_self n)

theorem natRepr_inj {a b : Nat} (h : natRepr a = natRepr b) : a = b := by
  have := digitsVal_natRepr a
  rw [h, digitsVal_natRepr] at this
  omega

theorem mkNumbered_inj (base ext : Str) {a b : Nat}
    (h : mkNumbered base ext a = mkNumbered base ext b) : a = b := by
  unfold mkNumbered at h
  have h1 := List.append_cancel_left h
  have h2 : natRepr a ++ ext = natRepr b ++ ext := by
    injection h1
  exact natRepr_inj (List.append_cancel_right h2)

theorem exists_free (base ext : Str) (fns : List Str) :
    ∃ k, k < fns.length + 1 ∧ mkNumbered base ext (k+1) ∉ fns := by
  by_contra hc
  push_neg at hc
  have hinj : Function.Injective (fun k : Fin (fns.length + 1) => mkNumbered base ext (k.1+1)) := by
    intro i j hij
    have := mkNumbered_inj base ext hij
    exact Fin.ext (by omega)
  have hsub : (Finset.univ.image (fun k : Fin (fns.length + 1) => mkNumbered base ext (k.1+1)))
      ⊆ fns.toFinset := by
    intro x hx
    rcases Finset.mem_image.mp hx with ⟨k, _, hk⟩
    rw [List.mem_toFinset, ← hk]
    exact hc k.1 k.2
  have hcard := Finset.card_le_card hsub
  rw [Finset.card_image_of_injective _ hinj, Finset.card_univ, Fintype.card_fin] at hcard
  have := fns.toFinset_card_le
  omega

theorem uniqLoop_spec (base ext : Str) (fns : List Str) :
    ∀ fuel c, (∃ k, k < fuel ∧ mkNumbered base ext (c+1+k) ∉ fns) →
      c < (uniqLoop base ext fns fuel c).2 ∧
      (uniqLoop base ext fns fuel c).1 = mkNumbered base ext (uniqLoop base ext fns fuel c).2 ∧
      (uniqLoop base ext fns fuel c).1 ∉ fns ∧
      ∀ m, c < m → m < (uniqLoop base ext fns fuel c).2 → mkNumbered base ext m ∈ fns := by
  intro fuel
  induction fuel with
  | zero => intro c h; rcases h with ⟨k, hk, _⟩; omega
  | succ fuel ih =>
    intro c h
    by_cases hmem : mkNumbered base ext (c+1) ∈ fns
    · have hrec : uniqLoop base ext fns (fuel+1) c = uniqLoop base ext fns fuel (c+1) := by
        simp [uniqLoop, hmem]
      rcases h with ⟨k, hk, hfree⟩
      have hk0 : k ≠ 0 := by
        intro h0
        rw [h0] at hfree
        exact hfree hmem
      have ⟨hlt, heq, hnot, hall⟩ := ih (c+1) ⟨k - 1, by omega, by
        have : c + 1 + 1 + (k - 1) = c + 1 + k := by omega
        rw [this]; exact hfree⟩
      rw [hrec]
      refine ⟨by omega, heq, hnot, ?_⟩
      intro m hm1 hm2
      by_cases hmc : m = c + 1
      · rw [hmc]; exact hmem
      · exact hall m (by omega) hm2
    · have hrec : uniqLoop base ext fns (fuel+1) c = (mkNumbered base ext (c+1), c+1) := by
        simp [uniqLoop, hmem]
      rw [hrec]
      exact ⟨by omega, rfl, hmem, by intro m hm1 hm2; omega⟩

theorem uniquify_not_mem (filename : Str) (fns : List Str) (counter : Nat) :
    (uniquify filename fns counter).1 ∉ fns := by
  unfold uniquify
  by_cases hmem : filename ∈ fns
  · simp only [hmem, if_pos]
    rcases exists_free (splitext filename).1 (splitext filename).2 fns with ⟨k, hk, hfree⟩
    have := uniqLoop_spec (splitext filename).1 (splitext filename).2 fns
      (fns.length + 1) 0 ⟨k, hk, by
        have h01 : 0 + 1 + k = k + 1 := by omega
        rw [h01]; exact hfree⟩
    exact this.2.2.1
  · rw [if_neg hmem]
    exact hmem

theorem startsWithStr_append (pat rest : Str) : startsWithStr pat (pat ++ rest) = true := by
  induction pat with
  | nil => rfl
  | cons p ps ih => simp [startsWithStr, ih]

theorem containsB_of_startsWith (pat s : Str) (h : startsWithStr pat s = true) :
    containsB pat s = true := by
  cases s with
  | nil => simpa [containsB] using h
  | cons c t => simp [containsB, h]

theorem containsB_cons (pat : Str) (c : Char) (t : Str) (h : containsB pat t = true) :
    containsB pat (c :: t) = true := by
  simp [containsB, h]

theorem containsB_append_left (pat rest : Str) :
    containsB pat (pat ++ rest) = true :=
  containsB_of_startsWith pat (pat ++ rest) (startsWithStr_append pat rest)

theorem matchCid_nil (cid : Str) : matchCid cid [] = none := by
  simp [matchCid, stripPrefixCI]

theorem hasRef_nil (cid : Str) : hasRef cid [] = false := by
  simp [hasRef, matchCid_nil]

/-- If the text contains a `cid:` reference to `cid`, then the substituted
text contains the replacement string. -/
theorem subAllFuel_contains (cid repl : Str) :
    ∀ fuel s, s.length ≤ fuel → hasRef cid s = true →
      containsB repl (subAllFuel cid repl fuel s) = true := by
  intro fuel
  induction fuel with
  | zero =>
    intro s hlen href
    have : s = [] := List.length_eq_zero.mp (by omega)
    rw [this, hasRef_nil] at href
    exact absurd href (by simp)
  | succ fuel ih =>
    intro s hlen href
    cases hm : matchCid cid s with
    | some rest =>
      have : subAllFuel cid repl (fuel+1) s = repl ++ subAllFuel cid repl fuel rest := by
        simp [subAllFuel, hm]
      rw [this]
      exact containsB_append_left repl _
    | none =>
      cases s with
      | nil => rw [hasRef_nil] at href; exact absurd href (by simp)
      | cons c t =>
        have hstep : subAllFuel cid repl (fuel+1) (c :: t) = c :: subAllFuel cid repl fuel t := by
          simp [subAllFuel, hm]
        rw [hstep]
        have href' : hasRef cid t = true := by
          have : hasRef cid (c :: t) = ((matchCid cid (c :: t)).isSome || hasRef cid t) := rfl
          rw [this, hm] at href
          simpa using href
        have hlen' : t.length ≤ fuel := by
          simp only [List.length_cons] at hlen; omega
        exact containsB_cons repl c _ (ih t hlen' href')

theorem subAll_contains (cid repl s : Str) (h : hasRef cid s = true) :
    containsB repl (subAll cid repl s) = true :=
  subAllFuel_contains cid repl s.length s (Nat.le_refl _) h

theorem rewriteText_append (A B : List (Str × Str)) (s : Str) :
    rewriteText (A ++ B) s = rewriteText B (rewriteText A s) := by
  simp [rewriteText, List.foldl_append]

theorem rewriteLoop_text (index : List (Str × Str)) :
    ∀ s emb, (rewriteLoop index s emb).1 = rewriteText index s := by
  induction index with
  | nil => intro s emb; rfl
  | cons pr rest ih =>
    intro s emb
    cases pr with
    | mk cid path =>
      show (rewriteLoop ((cid, path) :: rest) s emb).1 = _
      rw [rewriteLoop, ih]
      rfl

theorem findFirstFuel_none (fuel : Nat) :
    ∀ p t, hasVisibleFuel fuel t = false → findFirstFuel fuel p t = none := by
  induction fuel with
  | zero =>
    intro p t _
    rfl
  | succ fuel ih =>
    intro p t hvis
    cases t with
    | file n => rfl
    | dir n es =>
      have hvis' : ((fileNames es).any (fun m => !(m.head? == some '.')) = false)
          ∧ (dirsOf es).any (fun d => hasVisibleFuel fuel d) = false := by
        have : hasVisibleFuel (fuel+1) (.dir n es)
            = ((fileNames es).any (fun m => !(m.head? == some '.'))
               || (dirsOf es).any (fun d => hasVisibleFuel fuel d)) := rfl
        rw [this] at hvis
        exact ⟨by simpa using (Bool.or_eq_false_iff.mp hvis).1,
               by simpa using (Bool.or_eq_false_iff.mp hvis).2⟩
      have hfind : (fileNames es).find? (fun m => !(m.head? == some '.')) = none := by
        rw [List.find?_eq_none]
        intro x hx
        have := List.any_eq_false.mp hvis'.1 x hx
        simpa using this
      have hsub : (dirsOf es).findSome? (fun d => findFirstFuel fuel (os_path_join p d.name) d)
          = none := by
        rw [List.findSome?_eq_none_iff]
        intro d hd
        exact ih _ d (Bool.eq_false_iff.mpr (List.any_eq_false.mp hvis'.2 d hd))
      show (match (fileNames es).find? (fun m => !(m.head? == some '.')) with
        | some m => some (os_path_join p m)
        | none => (dirsOf es).findSome? (fun d => findFirstFuel fuel (os_path_join p d.name) d))
        = none
      rw [hfind, hsub]

/-- Claim C1, counterexample: with ContentIdIndex entries `img1` and `img12`
(in that insertion order) the HTML text `<img src=cid:img12>` references
`cid:img12`, yet the rewritten text does not contain `file://` followed by the
path of `img12`'s extracted file: the earlier substitution for `img1`, a
case-insensitive prefix of `img12`, consumed the reference first. -/
theorem C1_counterexample :
    hasRef ("img12".toList) ("<img src=cid:img12>".toList) = true ∧
    rewriteText [("img1".toList, "/tmp/t/cidimg1.png".toList),
                 ("img12".toList, "/tmp/t/cidimg12.png".toList)]
        ("<img src=cid:img12>".toList)
      = "<img src=file:///tmp/t/cidimg1.png2>".toList ∧
    containsB ("file://".toList ++ "/tmp/t/cidimg12.png".toList)
      (rewriteText [("img1".toList, "/tmp/t/cidimg1.png".toList),
                    ("img12".toList, "/tmp/t/cidimg12.png".toList)]
        ("<img src=cid:img12>".toList)) = false := by
  refine ⟨by decide, by decide, by decide⟩

/-- Claim C1, amended: for a content-identifier in the ContentIdIndex that an
HTML part references as `cid:ID` (any case, optional space after the colon),
the rewritten text contains `file://` followed by the exact path of that
identifier's extracted file, provided the substitutions for identifiers
processed earlier leave some `cid:ID` reference intact and the substitutions
for identifiers processed later change nothing. -/
theorem C1_amended_thm (A B : List (Str × Str)) (cid path html : Str)
    (h1 : hasRef cid (rewriteText A html) = true)
    (h2 : rewriteText B (subAll cid ("file://".toList ++ path) (rewriteText A html))
        = subAll cid ("file://".toList ++ path) (rewriteText A html)) :
    containsB ("file://".toList ++ path) (rewriteText (A ++ (cid, path) :: B) html) = true := by
  have hsplit : rewriteText (A ++ (cid, path) :: B) html
      = rewriteText B (subAll cid ("file://".toList ++ path) (rewriteText A html)) := by
    rw [rewriteText_append]
    rfl
  rw [hsplit, h2]
  exact subAll_contains cid ("file://".toList ++ path) (rewriteText A html) h1

/-- Claim C1, witness: a one-entry index whose identifier the HTML references
yields a rewritten text containing the `file://` URL. -/
theorem C1_amended_witness :
    containsB ("file://".toList ++ "/tmp/t/a.png".toList)
      (rewriteText ([] ++ ("img1".toList, "/tmp/t/a.png".toList) :: [])
        ("x cid:img1 y".toList)) = true :=
  C1_amended_thm [] [] ("img1".toList) ("/tmp/t/a.png".toList) ("x cid:img1 y".toList)
    (by decide) (by decide)

/-- Claim C2 (code-bug evidence): an `application/pdf` attachment with no
Content-ID header is extracted to disk, but — because the dispatch loop of
line 366 iterates over the ContentIdIndex only — it never reaches the
dispatch/conversion phase: no browser call and no converter call occurs,
although the run finishes without error. -/
theorem C2_thm :
    (view_html_message ("/tmp/t".toList) noFail exMsgC2).written.map Prod.fst
      = ["/tmp/t/doc.pdf".toList] ∧
    (view_html_message ("/tmp/t".toList) noFail exMsgC2).subfiles = [] ∧
    (view_html_message ("/tmp/t".toList) noFail exMsgC2).calls = [] ∧
    (view_html_message ("/tmp/t".toList) noFail exMsgC2).convs = [] ∧
    (view_html_message ("/tmp/t".toList) noFail exMsgC2).err = none := by
  refine ⟨by decide, by decide, by decide, by decide, by decide⟩

/-- Claim C3, counterexample: for a maildir containing only a hidden file the
loader does not report NotFound gracefully — `open(find_first_maildir_file(f))`
is `open(None)`, an uncaught TypeError, i.e. a crash. -/
theorem C3_counterexample :
    load_maildir 2 ("/tmp/mutttmp".toList) exDirC3 = Except.error PyError.typeError := by
  rfl

/-- Claim C3, amended: for every maildir tree with no regular non-hidden file
(within the stated depth), the locator returns `none` (NotFound) and loading
never succeeds — so no part extraction occurs — but the caller crashes with an
uncaught error (TypeError from `open(None)`, or AttributeError from using the
never-assigned message when the directory listing is empty) instead of
reporting the condition. -/
theorem C3_amended_thm (fuel : Nat) (p : Str) (root : FT)
    (h : hasVisibleFuel fuel root = false) :
    findFirstFuel fuel p root = none ∧
    (∃ e, load_maildir fuel p root = Except.error e) ∧
    ∀ s, load_maildir fuel p root ≠ Except.ok s := by
  have hff := findFirstFuel_none fuel p root h
  refine ⟨hff, ?_, ?_⟩
  · unfold load_maildir
    by_cases hl : (listdir root).isEmpty
    · exact ⟨PyError.attributeError, by simp [hl]⟩
    · exact ⟨PyError.typeError, by simp [hl, hff]⟩
  · intro s hs
    unfold load_maildir at hs
    by_cases hl : (listdir root).isEmpty
    · simp [hl] at hs
    · simp [hl, hff] at hs

/-- Claim C3, witness: the hidden-file-only maildir instantiates the amended
claim. -/
theorem C3_amended_witness :
    findFirstFuel 2 ("/tmp/mutttmp".toList) exDirC3 = none ∧
    (∃ e, load_maildir 2 ("/tmp/mutttmp".toList) exDirC3 = Except.error e) ∧
    ∀ s, load_maildir 2 ("/tmp/mutttmp".toList) exDirC3 ≠ Except.ok s :=
  C3_amended_thm 2 ("/tmp/mutttmp".toList) exDirC3 (by decide)

/-- Claim C4, counterexample: when the write of the first of two attachments
fails, the run aborts with the write error — the second attachment is never
attempted, contradicting the claim that extraction of remaining parts
continues. -/
theorem C4_counterexample :
    (view_html_message ("/tmp/t".toList) exOracleC4 exMsgC4).written = [] ∧
    (view_html_message ("/tmp/t".toList) exOracleC4 exMsgC4).attempts
      = ["/tmp/t/a.png".toList] ∧
    (view_html_message ("/tmp/t".toList) exOracleC4 exMsgC4).err
      = some PyError.writeError := by
  refine ⟨by decide, by decide, by decide⟩

/-- Claim C4, amended: a filesystem write failure while persisting one part
aborts the run — the extraction loop stops at the failing part with its error
(no later part is processed), and the whole run then produces no rewritten
HTML file and no browser call; the source has no part-local failure
recovery. -/
theorem C4_amended_thm :
    (∀ (tmpdir : Str) (wo : Str → Bool) (st st' : ExtractState) (p : Part)
        (rest : List Part) (e : PyError),
      processPart tmpdir wo st p = (st', some e) →
      extractLoop tmpdir wo st (p :: rest) = (st', some e)) ∧
    (∀ (tmpdir : Str) (wo : Str → Bool) (parts : List Part) (st' : ExtractState) (e : PyError),
      extractLoop tmpdir wo initState parts = (st', some e) →
      (view_html_message tmpdir wo parts).htmlFiles = [] ∧
      (view_html_message tmpdir wo parts).calls = [] ∧
      (view_html_message tmpdir wo parts).err = some e) := by
  constructor
  · intro tmpdir wo st st' p rest e h
    simp [extractLoop, h]
  · intro tmpdir wo parts st' e h
    simp [view_html_message, h]

/-- Claim C4, witness: the failing two-attachment message instantiates the
amended claim end to end. -/
theorem C4_amended_witness :
    (view_html_message ("/tmp/t".toList) exOracleC4 exMsgC4).htmlFiles = [] ∧
    (view_html_message ("/tmp/t".toList) exOracleC4 exMsgC4).calls = [] ∧
    (view_html_message ("/tmp/t".toList) exOracleC4 exMsgC4).err
      = some PyError.writeError :=
  C4_amended_thm.2 ("/tmp/t".toList) exOracleC4 exMsgC4
    (extractLoop ("/tmp/t".toList) exOracleC4 initState exMsgC4).1 PyError.writeError rfl

/-- Claim C8: every character surviving `sanitize_filename` satisfies the
allowed-character predicate (letter, digit, `-`, `_`, `.`); in particular no
path separator survives, so no traversal can be assembled from separators. -/
theorem C8_thm (s : Str) :
    (sanitize_filename s).all allowedChar = true ∧
    '/' ∉ sanitize_filename s ∧
    '\\' ∉ sanitize_filename s := by
  refine ⟨?_, ?_, ?_⟩
  · rw [List.all_eq_true]
    intro c hc
    exact (List.mem_filter.mp hc).2
  · intro h
    exact absurd (List.mem_filter.mp h).2 (by decide)
  · intro h
    exact absurd (List.mem_filter.mp h).2 (by decide)

/-- Claim C8, witness: a concrete sanitization keeps only allowed
characters. -/
theorem C8_witness :
    (sanitize_filename ("a/b.png".toList)).all allowedChar = true ∧
    '/' ∉ sanitize_filename ("a/b.png".toList) ∧
    '\\' ∉ sanitize_filename ("a/b.png".toList) :=
  C8_thm ("a/b.png".toList)

/-- Claim C10: the declared filename `///` is non-empty yet sanitizes to the
empty string; no fallback name is derived (the declared-filename branch was
taken), the empty name is used as-is, and the attempted write target is
`os.path.join(tmpdir, "")`, i.e. the working-directory path itself (with a
trailing separator). -/
theorem C10_thm :
    sanitize_filename ("///".toList) = [] ∧
    derive_filename exPartC10 none 1 = [] ∧
    (extractLoop ("/tmp/t".toList) noFail initState [exPartC10]).1.chosen = [([] : Str)] ∧
    (extractLoop ("/tmp/t".toList) noFail initState [exPartC10]).1.attempts
      = ["/tmp/t/".toList] ∧
    (view_html_message ("/tmp/t".toList) noFail [exPartC10]).written.map Prod.fst
      = ["/tmp/t/".toList] := by
  refine ⟨by decide, by decide, by decide, by decide, by decide⟩

/-- Claim C6, counterexample: for a part with no declared filename, a content
identifier `ab@cd` and media type `image/png`, the code derives
`cidabcd.png` — the whole name is sanitized, so the `@` of the identifier is
dropped — and not the claimed `cid` ++ identifier ++ extension. -/
theorem C6_counterexample :
    derive_filename exPartC6 (some ("ab@cd".toList)) 2 = "cidabcd.png".toList ∧
    (derive_filename exPartC6 (some ("ab@cd".toList)) 2
      == "cid".toList ++ "ab@cd".toList ++ ".png".toList) = false := by
  refine ⟨by decide, by decide⟩

/-- Claim C6, amended: the derived filename follows the priority order
(a) a declared non-empty filename, sanitized; (b) otherwise, when a content
identifier is present, `cid` ++ identifier ++ extension, the whole then
sanitized to the allowed character set; (c) otherwise `part-` ++ zero-padded
counter ++ extension; the extension is guessed from the media type and falls
back to `.bin` when unknown. -/
theorem C6_amended_thm (p : Part) (cidT : Option Str) (counter : Nat) :
    (∀ f, p.filename = some f → f ≠ [] →
      derive_filename p cidT counter = sanitize_filename f) ∧
    (∀ c, (p.filename = none ∨ p.filename = some []) → cidT = some c →
      derive_filename p cidT counter
        = sanitize_filename ("cid".toList ++ c
            ++ (guess_extension p.maintype p.subtype).getD (".bin".toList))) ∧
    ((p.filename = none ∨ p.filename = some []) → cidT = none →
      derive_filename p cidT counter
        = "part-".toList ++ pad 3 counter
            ++ (guess_extension p.maintype p.subtype).getD (".bin".toList)) := by
  refine ⟨?_, ?_, ?_⟩
  · intro f hf hne
    cases f with
    | nil => exact absurd rfl hne
    | cons c t => simp [derive_filename, hf]
  · intro c hfe hc
    rcases hfe with hfe | hfe <;> simp [derive_filename, hfe, hc]
  · intro hfe hc
    rcases hfe with hfe | hfe <;> simp [derive_filename, hfe, hc]

/-- Claim C6, witness: the cid branch at a concrete part. -/
theorem C6_amended_witness :
    derive_filename exPartC6 (some ("x".toList)) 3
      = sanitize_filename ("cid".toList ++ "x".toList
          ++ (guess_extension exPartC6.maintype exPartC6.subtype).getD (".bin".toList)) :=
  (C6_amended_thm exPartC6 (some ("x".toList)) 3).2.1 ("x".toList) (Or.inl rfl) rfl

/-- Written entries produced by one loop iteration: either inherited from the
incoming state, or a write of the very part processed, which the guard of
line 221 admitted only as a non-container. -/
theorem processPartPre_written (tmpdir : Str) (st : ExtractState) (p : Part) :
    (processPartPre tmpdir st p).1.written = st.written := rfl

theorem processPart_written_sub (tmpdir : Str) (wo : Str → Bool) (st : ExtractState) (p : Part) :
    ∀ pr ∈ (processPart tmpdir wo st p).1.written,
      pr ∈ st.written ∨ (pr.2 = p ∧ p.multipart = false) := by
  intro pr hpr
  cases hm : p.multipart with
  | true =>
    unfold processPart at hpr
    rw [hm] at hpr
    simp only [Bool.true_or, if_true] at hpr
    exact Or.inl hpr
  | false =>
    unfold processPart at hpr
    rw [hm] at hpr
    simp only [Bool.or_false, Bool.false_eq_true, if_false] at hpr
    by_cases hw : wo (os_path_join tmpdir (processPartPre tmpdir st p).2) = true
    · rw [if_pos hw] at hpr
      change pr ∈ (processPartPre tmpdir st p).1.written at hpr
      rw [processPartPre_written] at hpr
      exact Or.inl hpr
    · rw [if_neg hw] at hpr
      change pr ∈ st.written ++ [(os_path_join tmpdir (processPartPre tmpdir st p).2, p)] at hpr
      rcases List.mem_append.mp hpr with h | h
      · exact Or.inl h
      · have hpr2 : pr = (os_path_join tmpdir (processPartPre tmpdir st p).2, p) := by
          simpa using h
        exact Or.inr ⟨by rw [hpr2], rfl⟩

/-- Written entries of a whole extraction run: inherited, or a non-container
part of the input list. -/
theorem extractLoop_written_sub (tmpdir : Str) (wo : Str → Bool) :
    ∀ (parts : List Part) (st : ExtractState),
      ∀ pr ∈ (extractLoop tmpdir wo st parts).1.written,
        pr ∈ st.written ∨ (pr.2 ∈ parts ∧ pr.2.multipart = false) := by
  intro parts
  induction parts with
  | nil => intro st pr hpr; exact Or.inl hpr
  | cons p rest ih =>
    intro st pr hpr
    cases hpp : processPart tmpdir wo st p with
    | mk st' e =>
      have hst' : st'.written = (processPart tmpdir wo st p).1.written := by rw [hpp]
      cases e with
      | none =>
        have hl : extractLoop tmpdir wo st (p :: rest) = extractLoop tmpdir wo st' rest := by
          simp [extractLoop, hpp]
        rw [hl] at hpr
        rcases ih st' pr hpr with h | h
        · rcases processPart_written_sub tmpdir wo st p pr (hst' ▸ h) with h2 | h2
          · exact Or.inl h2
          · exact Or.inr ⟨by rw [h2.1]; exact List.mem_cons_self p rest,
              by rw [h2.1]; exact h2.2⟩
        · exact Or.inr ⟨List.mem_cons_of_mem p h.1, h.2⟩
      | some err =>
        have hl : extractLoop tmpdir wo st (p :: rest) = (st', some err) := by
          simp [extractLoop, hpp]
        rw [hl] at hpr
        rcases processPart_written_sub tmpdir wo st p pr (hst' ▸ hpr) with h2 | h2
        · exact Or.inl h2
        · exact Or.inr ⟨by rw [h2.1]; exact List.mem_cons_self p rest,
            by rw [h2.1]; exact h2.2⟩

/-- The parser invariant specializes on non-containers: a walked part with a
non-list payload is declared neither `multipart/*` nor `message/rfc822`. -/
theorem wf_leaf_types (p : Part) (hwf : Part.wf p = true) (hm : p.multipart = false) :
    p.maintype ≠ "multipart".toList ∧
    ¬(p.maintype = "message".toList ∧ p.subtype = "rfc822".toList) := by
  rw [Part.wf, hm, Bool.or_false, Bool.not_eq_true', Bool.or_eq_false_iff] at hwf
  constructor
  · intro h
    have := hwf.1
    rw [h] at this
    simp at this
  · intro h
    have := hwf.2
    rw [h.1, h.2] at this
    simp at this

/-- Claim C5: in a run over walked parts satisfying the parser invariant,
every file written comes from a part that is not a container (its payload is
not a sub-message list) and is neither a `multipart/*` nor a `message/rfc822`
part: containers are never themselves persisted. -/
theorem C5_thm (tmpdir : Str) (wo : Str → Bool) (parts : List Part)
    (hwf : parts.all Part.wf = true) :
    ∀ pr ∈ (extractLoop tmpdir wo initState parts).1.written,
      pr.2.multipart = false ∧
      pr.2.maintype ≠ "multipart".toList ∧
      ¬(pr.2.maintype = "message".toList ∧ pr.2.subtype = "rfc822".toList) := by
  intro pr hpr
  rcases extractLoop_written_sub tmpdir wo parts initState pr hpr with h | h
  · exact absurd h (by simp [initState])
  · have hw := List.all_eq_true.mp hwf pr.2 h.1
    have ht := wf_leaf_types pr.2 hw h.2
    exact ⟨h.2, ht.1, ht.2⟩

/-- Claim C5, witness: a message whose `message/rfc822` container wraps an
HTML leaf — the written entry is the leaf, which is no container. -/
theorem C5_witness :
    exMsgC5.all Part.wf = true ∧
    (("/tmp/t/part-001.html".toList,
        (⟨[], "text".toList, "html".toList, none, "<p>hi</p>".toList, false⟩ : Part)).2.multipart
          = false ∧
      ("/tmp/t/part-001.html".toList,
        (⟨[], "text".toList, "html".toList, none, "<p>hi</p>".toList, false⟩ : Part)).2.maintype
          ≠ "multipart".toList ∧
      ¬(("/tmp/t/part-001.html".toList,
          (⟨[], "text".toList, "html".toList, none, "<p>hi</p>".toList, false⟩ : Part)).2.maintype
            = "message".toList ∧
        ("/tmp/t/part-001.html".toList,
          (⟨[], "text".toList, "html".toList, none, "<p>hi</p>".toList, false⟩ : Part)).2.subtype
            = "rfc822".toList)) :=
  ⟨by decide, C5_thm ("/tmp/t".toList) noFail exMsgC5 (by decide)
    ("/tmp/t/part-001.html".toList,
      (⟨[], "text".toList, "html".toList, none, "<p>hi</p>".toList, false⟩ : Part))
    (by decide)⟩

theorem takeWhile_dot_decomp :
    ∀ (l : Str), ((l.takeWhile (fun c => !(c == '.'))).length ≠ l.length) →
      l = l.takeWhile (fun c => !(c == '.'))
        ++ '.' :: l.drop ((l.takeWhile (fun c => !(c == '.'))).length + 1) := by
  intro l
  induction l with
  | nil => intro h; simp at h
  | cons c t ih =>
    intro h
    by_cases hc : (c == '.') = true
    · have hceq : c = '.' := by simpa using hc
      simp [List.takeWhile_cons, hc, hceq]
    · have hq : (!(c == '.')) = true := by simp [hc]
      have htw : (c :: t).takeWhile (fun x => !(x == '.'))
          = c :: t.takeWhile (fun x => !(x == '.')) := by
        simp [List.takeWhile_cons, hq]
      rw [htw] at h ⊢
      have hlen : (t.takeWhile (fun x => !(x == '.'))).length ≠ t.length := by
        simp only [List.length_cons] at h
        omega
      have hrec := ih hlen
      simp only [List.cons_append, List.length_cons, List.drop_succ_cons]
      exact congrArg (List.cons c) hrec

theorem splitext_append (s : Str) : (splitext s).1 ++ (splitext s).2 = s := by
  unfold splitext
  by_cases h : ((s.reverse).takeWhile (fun c => !(c == '.'))).length = s.reverse.length
  · simp [h]
  · by_cases h2 : (s.reverse.drop
        (((s.reverse).takeWhile (fun c => !(c == '.'))).length + 1)).any (fun c => !(c == '.'))
    · simp only [if_neg h, if_pos h2]
      have hdec := takeWhile_dot_decomp s.reverse h
      conv_rhs => rw [← List.reverse_reverse s, hdec]
      rw [List.reverse_append, List.reverse_cons, List.append_assoc]
      rfl
    · simp [if_neg h, h2]

theorem sanitize_no_slash (s : Str) : '/' ∉ sanitize_filename s := by
  intro h
  exact absurd (List.mem_filter.mp h).2 (by decide)

theorem natReprAux_digits :
    ∀ fuel n c, c ∈ natReprAux fuel n → c.isDigit = true := by
  intro fuel
  induction fuel with
  | zero => intro n c h; simp [natReprAux] at h
  | succ fuel ih =>
    intro n c h
    unfold natReprAux at h
    rcases List.mem_append.mp h with h | h
    · by_cases h10 : n < 10
      · rw [if_pos h10] at h
        simp at h
      · rw [if_neg h10] at h
        exact ih _ c h
    · have hc : c = Nat.digitChar (n % 10) := by simpa using h
      have hd : ∀ d, d < 10 → (Nat.digitChar d).isDigit = true := by decide
      rw [hc]
      exact hd _ (Nat.mod_lt _ (by omega))

theorem natRepr_no_slash (n : Nat) : '/' ∉ natRepr n := by
  intro h
  have := natReprAux_digits (n+1) n '/' h
  exact absurd this (by decide)

theorem pad_no_slash (w n : Nat) : '/' ∉ pad w n := by
  intro h
  rcases List.mem_append.mp h with h | h
  · have := List.eq_of_mem_replicate h
    exact absurd this (by decide)
  · exact natRepr_no_slash n h

theorem guessD_no_slash (mt st : Str) :
    '/' ∉ (guess_extension mt st).getD (".bin".toList) := by
  unfold guess_extension
  split_ifs <;> decide

theorem derive_no_slash (p : Part) (cidT : Option Str) (counter : Nat) :
    '/' ∉ derive_filename p cidT counter := by
  have hfb : '/' ∉ (match cidT with
      | some c => sanitize_filename ("cid".toList ++ c
          ++ (guess_extension p.maintype p.subtype).getD (".bin".toList))
      | none => "part-".toList ++ pad 3 counter
          ++ (guess_extension p.maintype p.subtype).getD (".bin".toList) : Str) := by
    cases cidT with
    | some c => exact sanitize_no_slash _
    | none =>
      intro h
      rcases List.mem_append.mp h with h | h
      · rcases List.mem_append.mp h with h | h
        · exact absurd h (by decide)
        · exact pad_no_slash 3 counter h
      · exact guessD_no_slash _ _ h
  unfold derive_filename
  cases hf : p.filename with
  | some f =>
    by_cases he : f.isEmpty
    · simpa [he] using hfb
    · simpa [he] using sanitize_no_slash f
  | none => simpa using hfb

theorem mkNumbered_no_slash (base ext : Str) (n : Nat)
    (hb : '/' ∉ base) (he : '/' ∉ ext) : '/' ∉ mkNumbered base ext n := by
  intro h
  unfold mkNumbered at h
  rcases List.mem_append.mp h with h | h
  · exact hb h
  · rcases List.mem_cons.mp h with h | h
    · exact absurd h (by decide)
    · rcases List.mem_append.mp h with h | h
      · exact natRepr_no_slash n h
      · exact he h

theorem uniqLoop_no_slash (base ext : Str) (fns : List Str)
    (hb : '/' ∉ base) (he : '/' ∉ ext) :
    ∀ fuel c, '/' ∉ (uniqLoop base ext fns fuel c).1 := by
  intro fuel
  induction fuel with
  | zero => intro c; exact mkNumbered_no_slash base ext c hb he
  | succ fuel ih =>
    intro c
    unfold uniqLoop
    by_cases hmem : mkNumbered base ext (c+1) ∈ fns
    · simp only [hmem, if_true]
      exact ih (c+1)
    · simp only [hmem, if_false]
      exact mkNumbered_no_slash base ext (c+1) hb he

theorem uniquify_no_slash (fn : Str) (fns : List Str) (c : Nat) (h : '/' ∉ fn) :
    '/' ∉ (uniquify fn fns c).1 := by
  unfold uniquify
  split
  · apply uniqLoop_no_slash
    · intro hb
      exact h (splitext_append fn ▸ List.mem_append_left (splitext fn).2 hb)
    · intro hext
      exact h (splitext_append fn ▸ List.mem_append_right (splitext fn).1 hext)
  · exact h

theorem os_path_join_inj (t a b : Str) (ha : '/' ∉ a) (hb : '/' ∉ b)
    (h : os_path_join t a = os_path_join t b) : a = b := by
  have ha' : ¬(a.head? = some '/') := by
    intro hh
    cases a with
    | nil => simp at hh
    | cons x xs =>
      have : x = '/' := by simpa using hh
      exact ha (this ▸ List.mem_cons_self x xs)
  have hb' : ¬(b.head? = some '/') := by
    intro hh
    cases b with
    | nil => simp at hh
    | cons x xs =>
      have : x = '/' := by simpa using hh
      exact hb (this ▸ List.mem_cons_self x xs)
  unfold os_path_join at h
  rw [if_neg ha', if_neg hb'] at h
  have := List.append_cancel_left h
  simpa using this

theorem initState_inv (tmpdir : Str) : extractInv tmpdir initState :=
  ⟨List.nodup_nil, by intro n hn; simp [initState] at hn, rfl,
   by intro n hn; simp [initState] at hn⟩

theorem processPartPre_name (tmpdir : Str) (st : ExtractState) (p : Part) :
    (processPartPre tmpdir st p).2
      = (uniquify (derive_filename p (cidTruthy p) (counterAfterCid p st.counter))
          st.filenames (counterAfterCid p st.counter)).1 := rfl

theorem processPart_fields (tmpdir : Str) (wo : Str → Bool) (st : ExtractState) (p : Part) :
    (processPart tmpdir wo st p).1 = st ∨
    ((processPart tmpdir wo st p).1.chosen = st.chosen ++ [(processPartPre tmpdir st p).2] ∧
     (processPart tmpdir wo st p).1.filenames
       = (processPartPre tmpdir st p).2 :: st.filenames ∧
     (processPart tmpdir wo st p).1.attempts
       = st.attempts ++ [os_path_join tmpdir (processPartPre tmpdir st p).2]) := by
  cases hm : p.multipart with
  | true =>
    left
    unfold processPart
    rw [hm]
    simp
  | false =>
    right
    unfold processPart
    rw [hm]
    simp only [Bool.or_false, Bool.false_eq_true, if_false]
    by_cases hw : wo (os_path_join tmpdir (processPartPre tmpdir st p).2) = true
    · rw [if_pos hw]
      exact ⟨rfl, rfl, rfl⟩
    · rw [if_neg hw]
      exact ⟨rfl, rfl, rfl⟩

theorem processPart_inv (tmpdir : Str) (wo : Str → Bool) (st : ExtractState) (p : Part)
    (h : extractInv tmpdir st) : extractInv tmpdir (processPart tmpdir wo st p).1 := by
  rcases processPart_fields tmpdir wo st p with he | ⟨hc, hf, ha⟩
  · rw [he]; exact h
  · obtain ⟨h1, h2, h3, h4⟩ := h
    have hnotmem : (processPartPre tmpdir st p).2 ∉ st.filenames := by
      rw [processPartPre_name]
      exact uniquify_not_mem _ _ _
    have hnoslash : '/' ∉ (processPartPre tmpdir st p).2 := by
      rw [processPartPre_name]
      exact uniquify_no_slash _ _ _ (derive_no_slash p _ _)
    have hnotchosen : (processPartPre tmpdir st p).2 ∉ st.chosen :=
      fun hx => hnotmem (h2 _ hx)
    refine ⟨?_, ?_, ?_, ?_⟩
    · rw [hc, List.nodup_append]
      exact ⟨h1, List.nodup_singleton _, by simp [List.disjoint_singleton, hnotchosen]⟩
    · rw [hc, hf]
      intro n hn
      rcases List.mem_append.mp hn with hx | hx
      · exact List.mem_cons_of_mem _ (h2 n hx)
      · have hx2 : n = (processPartPre tmpdir st p).2 := by simpa using hx
        rw [hx2]
        exact List.mem_cons_self _ _
    · rw [ha, hc, h3, List.map_append]
      rfl
    · rw [hc]
      intro n hn
      rcases List.mem_append.mp hn with hx | hx
      · exact h4 n hx
      · have hx2 : n = (processPartPre tmpdir st p).2 := by simpa using hx
        rw [hx2]
        exact hnoslash

theorem extractLoop_inv (tmpdir : Str) (wo : Str → Bool) :
    ∀ (parts : List Part) (st : ExtractState), extractInv tmpdir st →
      extractInv tmpdir (extractLoop tmpdir wo st parts).1 := by
  intro parts
  induction parts with
  | nil => intro st h; exact h
  | cons p rest ih =>
    intro st h
    cases hpp : processPart tmpdir wo st p with
    | mk st' e =>
      have hinv' : extractInv tmpdir st' := by
        have hx := processPart_inv tmpdir wo st p h
        rw [hpp] at hx
        exact hx
      cases e with
      | none =>
        have hl : extractLoop tmpdir wo st (p :: rest) = extractLoop tmpdir wo st' rest := by
          simp [extractLoop, hpp]
        rw [hl]
        exact ih st' hinv'
      | some err =>
        have hl : extractLoop tmpdir wo st (p :: rest) = (st', some err) := by
          simp [extractLoop, hpp]
        rw [hl]
        exact hinv'

/-- Claim C7: in every run the chosen filenames are pairwise distinct and so
are the write paths on disk — no file overwrites another; and a colliding
derived filename is resolved to `base-N` ++ ext for the least `N ≥ 1` whose
name is unused, every smaller suffix having been taken. -/
theorem C7_thm (tmpdir : Str) (wo : Str → Bool) (parts : List Part) :
    ((extractLoop tmpdir wo initState parts).1.chosen.Nodup ∧
     (extractLoop tmpdir wo initState parts).1.attempts.Nodup) ∧
    (∀ fn fns c, fn ∈ fns →
      ∃ N, 1 ≤ N ∧
        (uniquify fn fns c).1 = mkNumbered (splitext fn).1 (splitext fn).2 N ∧
        (uniquify fn fns c).1 ∉ fns ∧
        ∀ m, 1 ≤ m → m < N → mkNumbered (splitext fn).1 (splitext fn).2 m ∈ fns) := by
  constructor
  · have hinv := extractLoop_inv tmpdir wo parts initState (initState_inv tmpdir)
    refine ⟨hinv.1, ?_⟩
    rw [hinv.2.2.1]
    exact hinv.1.map_on (fun x hx y hy hxy =>
      os_path_join_inj tmpdir x y (hinv.2.2.2 x hx) (hinv.2.2.2 y hy) hxy)
  · intro fn fns c hmem
    unfold uniquify
    rw [if_pos hmem]
    obtain ⟨k, hk, hfree⟩ := exists_free (splitext fn).1 (splitext fn).2 fns
    have hs := uniqLoop_spec (splitext fn).1 (splitext fn).2 fns (fns.length + 1) 0
      ⟨k, hk, by
        have h01 : 0 + 1 + k = k + 1 := by omega
        rw [h01]
        exact hfree⟩
    exact ⟨(uniqLoop (splitext fn).1 (splitext fn).2 fns (fns.length + 1) 0).2,
      by omega, hs.2.1, hs.2.2.1,
      fun m h1 h2 => hs.2.2.2 m (by omega) h2⟩

/-- Claim C7, witness: a second `image.png` becomes `image-1.png`. -/
theorem C7_witness :
    ∃ N, 1 ≤ N ∧
      (uniquify ("image.png".toList) [("image.png".toList)] 7).1
        = mkNumbered (splitext ("image.png".toList)).1 (splitext ("image.png".toList)).2 N ∧
      (uniquify ("image.png".toList) [("image.png".toList)] 7).1 ∉ [("image.png".toList)] ∧
      ∀ m, 1 ≤ m → m < N →
        mkNumbered (splitext ("image.png".toList)).1 (splitext ("image.png".toList)).2 m
          ∈ [("image.png".toList)] :=
  (C7_thm ("/tmp/t".toList) noFail []).2 ("image.png".toList) [("image.png".toList)] 7
    (by decide)

/-- Every browser call made for a dispatched attachment goes through
`delayed_browser`, which always uses the same-session argument set. -/
theorem dispatchPart_args (p : Part) (f : Str) :
    ∀ c ∈ (dispatchPart p f).calls, c.1 = BROWSER_ARGS := by
  intro c hc
  simp only [dispatchPart] at hc
  split_ifs at hc <;>
    simp only [List.mem_singleton, List.not_mem_nil] at hc <;>
    rw [hc]

/-- Every browser call of the attachment-dispatch loop uses the same-session
argument set. -/
theorem dispatchLoop_args (embedded : List Str) :
    ∀ sfs, ∀ c ∈ (dispatchLoop embedded sfs).calls, c.1 = BROWSER_ARGS := by
  intro sfs
  induction sfs with
  | nil => intro c hc; simp [dispatchLoop] at hc
  | cons e rest ih =>
    intro c hc
    cases e with
    | mk sfid pf =>
      unfold dispatchLoop at hc
      by_cases hm : sfid ∈ embedded
      · rw [if_pos hm] at hc
        exact ih c hc
      · rw [if_neg hm] at hc
        cases herr : (dispatchPart pf.2 pf.1).err with
        | some err =>
          simp only [herr] at hc
          exact dispatchPart_args pf.2 pf.1 c hc
        | none =>
          simp only [herr] at hc
          rcases List.mem_append.mp hc with h | h
          · exact dispatchPart_args pf.2 pf.1 c h
          · exact ih c h

/-- After the first HTML part, every browser call of the HTML phase uses the
same-session argument set. -/
theorem htmlPhaseLoop_args_false (tmpdir : Str) (sfp : List (Str × Str)) :
    ∀ (parts : List Part) (i : Nat) (emb : List Str),
      ∀ c ∈ (htmlPhaseLoop tmpdir sfp i false emb parts).calls, c.1 = BROWSER_ARGS := by
  intro parts
  induction parts with
  | nil => intro i emb c hc; simp [htmlPhaseLoop] at hc
  | cons p rest ih =>
    intro i emb c hc
    unfold htmlPhaseLoop at hc
    simp only [if_false] at hc
    rcases List.mem_cons.mp hc with h | h
    · rw [h]
      simp
    · exact ih (i+1) (rewriteLoop sfp p.payload emb).2 c h

/-- With the first-call flag set, the head call of the HTML phase uses the
first-call argument set and every later call the same-session set. -/
theorem htmlPhaseLoop_args_true (tmpdir : Str) (sfp : List (Str × Str)) (i : Nat)
    (emb : List Str) (parts : List Part) :
    (∀ c ∈ ((htmlPhaseLoop tmpdir sfp i true emb parts).calls).tail, c.1 = BROWSER_ARGS) ∧
    (parts ≠ [] →
      ((htmlPhaseLoop tmpdir sfp i true emb parts).calls).head?.map Prod.fst
        = some BROWSER_FIRST_ARGS) := by
  cases parts with
  | nil =>
    constructor
    · intro c hc
      simp [htmlPhaseLoop] at hc
    · intro h
      exact absurd rfl h
  | cons p rest =>
    have hcalls : (htmlPhaseLoop tmpdir sfp i true emb (p :: rest)).calls
        = (BROWSER_FIRST_ARGS,
            "file://".toList
              ++ os_path_join tmpdir ("viewhtml".toList ++ pad 2 i ++ ".html".toList))
          :: (htmlPhaseLoop tmpdir sfp (i+1) false
                (rewriteLoop sfp p.payload emb).2 rest).calls := rfl
    constructor
    · intro c hc
      rw [hcalls] at hc
      exact htmlPhaseLoop_args_false tmpdir sfp rest (i+1)
        (rewriteLoop sfp p.payload emb).2 c hc
    · intro _
      rw [hcalls]
      rfl

/-- Claim C9, counterexample: a run with no HTML part but with a dispatched
attachment (a PDF carrying an unreferenced Content-ID) makes its very first
browser call with the same-session argument set, which differs from the
first-call set. -/
theorem C9_counterexample :
    (view_html_message ("/tmp/t".toList) noFail exMsgC9).calls.map Prod.fst
      = [BROWSER_ARGS] ∧
    (BROWSER_ARGS == BROWSER_FIRST_ARGS) = false ∧
    (view_html_message ("/tmp/t".toList) noFail exMsgC9).htmlFiles = [] := by
  refine ⟨by decide, by decide, by decide⟩

/-- Claim C9, amended: every attachment dispatch uses the same-session
argument set — including the very first dispatch of a run that rewrites no
HTML part; within the HTML phase the first dispatch uses the first-call set
and all later ones the same-session set; and a message that is a single
`text/html` body produces exactly one rewritten HTML file, dispatched with
the first-call set. -/
theorem C9_amended_thm :
    (∀ (embedded : List Str) (sfs : List (Str × (Str × Part))),
      ∀ c ∈ (dispatchLoop embedded sfs).calls, c.1 = BROWSER_ARGS) ∧
    (∀ (tmpdir : Str) (sfp : List (Str × Str)) (i : Nat) (emb : List Str)
        (parts : List Part),
      ∀ c ∈ ((htmlPhaseLoop tmpdir sfp i true emb parts).calls).tail,
        c.1 = BROWSER_ARGS) ∧
    (∀ (tmpdir : Str) (sfp : List (Str × Str)) (i : Nat) (emb : List Str)
        (parts : List Part), parts ≠ [] →
      ((htmlPhaseLoop tmpdir sfp i true emb parts).calls).head?.map Prod.fst
        = some BROWSER_FIRST_ARGS) ∧
    (∀ (tmpdir payload : Str),
      (view_html_message tmpdir noFail
          [⟨[], "text".toList, "html".toList, none, payload, false⟩]).calls
        = [(BROWSER_FIRST_ARGS,
            "file://".toList ++ os_path_join tmpdir ("viewhtml00.html".toList))] ∧
      (view_html_message tmpdir noFail
          [⟨[], "text".toList, "html".toList, none, payload, false⟩]).htmlFiles
        = [(os_path_join tmpdir ("viewhtml00.html".toList), payload)]) := by
  refine ⟨dispatchLoop_args, ?_, ?_, ?_⟩
  · intro tmpdir sfp i emb parts
    exact (htmlPhaseLoop_args_true tmpdir sfp i emb parts).1
  · intro tmpdir sfp i emb parts h
    exact (htmlPhaseLoop_args_true tmpdir sfp i emb parts).2 h
  · intro tmpdir payload
    exact ⟨rfl, rfl⟩

/-- Claim C9, witness: an attachment dispatch at a concrete index entry uses
the same-session set, and a concrete single-HTML-body run makes exactly the
one first-call dispatch. -/
theorem C9_amended_witness :
    (BROWSER_ARGS, "file://".toList ++ ("/tmp/t/a".toList ++ "-html.html".toList)).1
      = BROWSER_ARGS ∧
    (view_html_message ("/tmp/t".toList) noFail
        [⟨[], "text".toList, "html".toList, none, "<p>hi</p>".toList, false⟩]).calls
      = [(BROWSER_FIRST_ARGS,
          "file://".toList ++ os_path_join ("/tmp/t".toList) ("viewhtml00.html".toList))] :=
  ⟨C9_amended_thm.1 [] [("x".toList, ("/tmp/t/a.pdf".toList,
      ⟨[("Content-ID".toList, "<x>".toList)], "application".toList, "pdf".toList,
       some ("a.pdf".toList), "P".toList, false⟩))]
      (BROWSER_ARGS, "file://".toList ++ ("/tmp/t/a".toList ++ "-html.html".toList))
      (by decide),
   (C9_amended_thm.2.2.2 ("/tmp/t".toList) ("<p>hi</p>".toList)).1⟩

end ViewHtmlMail
